import Mathlib

/-!
Verification of the counter fragment of the go-metrics library
(`counter.go` and `taggable.go` of package `metrics`).

Embedding conventions:

* Go `int64` values are embedded as `Int`, with every arithmetic result of
  the counter reduced modulo `2^64` (`wrap64`), so a counter's stored value
  is the bit pattern of the Go `int64` (an integer in `[0, 2^64)`).
  `atomic.AddInt64(&c.count, i)` is two's-complement addition, i.e. addition
  modulo `2^64` on bit patterns, and `atomic.AddInt64(&c.count, -i)` is
  subtraction modulo `2^64` (this is exact even for `i = math.MinInt64`,
  where Go's `-i` wraps to `i` itself: `x + i ≡ x - i (mod 2^64)` there).
  The program is sequential in this model, so atomic load/store are plain
  field reads/writes.

* Go `map[string]string` values are reference types.  We model the map heap
  explicitly: a `Heap` is a list of map contents (`TagMap`, an association
  list), and a map reference is its index (`Nat`).  A nil Go map is
  `Option.none`; a non-nil map field is `some r` for a heap reference `r`.
  Go map insertion (`m[k] = v`) overwrites the entry for an existing key and
  otherwise adds a new entry (`insertTag`); Go map indexing is `lookupTag`.

* Go panics are embedded as `Except String`: the `applyOp` step function
  returns `.error msg` exactly where the Go method panics with `msg`.
-/

/-- The contents of one Go `map[string]string`: an association list whose
keys are unique in any map actually built by Go (`TagKeysNodup`). -/
abbrev TagMap := List (String × String)

/-- Go map indexing `m[k]`: the value stored for key `k`, if any. -/
def lookupTag : TagMap → String → Option String
  | [], _ => none
  | (k, v) :: rest, key => if k = key then some v else lookupTag rest key

/-- Go map insertion `m[key] = v`: overwrite the entry for `key` if present,
otherwise add a new entry. -/
def insertTag : TagMap → String → String → TagMap
  | [], key, v => [(key, v)]
  | (k, w) :: rest, key, v =>
    if k = key then (key, v) :: rest else (k, w) :: insertTag rest key v

/-- The well-formedness invariant of every map Go can build: keys are
pairwise distinct. -/
def TagKeysNodup (m : TagMap) : Prop := (m.map Prod.fst).Nodup

instance (m : TagMap) : Decidable (TagKeysNodup m) := by
  unfold TagKeysNodup; infer_instance

/-- The body of `StandardCounter.Snapshot`'s copy loop and of
`StandardCounter.AddTags`'s merge loop: `for k, v := range src { dst[k] = v }`
starting from `dst`. -/
def mergeTags (dst src : TagMap) : TagMap :=
  src.foldl (fun acc p => insertTag acc p.1 p.2) dst

/-- `tagsCopy := map[string]string{}; for k, v := range m { tagsCopy[k] = v }`. -/
def copyTags (m : TagMap) : TagMap := mergeTags [] m

/-- The heap of Go maps: `store.getD r []` is the map behind reference `r`. -/
structure Heap where
  store : List TagMap

/-- Dereference a map reference. -/
def Heap.get (h : Heap) (r : Nat) : TagMap := h.store.getD r []

/-- Overwrite the map behind reference `r`. -/
def Heap.set (h : Heap) (r : Nat) (m : TagMap) : Heap := ⟨h.store.set r m⟩

/-- Allocate a fresh map (`map[string]string{…}`) and return its reference. -/
def Heap.alloc (h : Heap) (m : TagMap) : Heap × Nat :=
  (⟨h.store ++ [m]⟩, h.store.length)

/-- `len` of a possibly-nil Go map field. -/
def tagsLen (h : Heap) (t : Option Nat) : Nat :=
  match t with
  | none => 0
  | some r => (h.get r).length

/-- The map a possibly-nil Go map field denotes (`nil` reads as empty). -/
def viewTags (h : Heap) (t : Option Nat) : TagMap :=
  match t with
  | none => []
  | some r => h.get r

/-- `type StandardCounter struct { count int64; tags map[string]string }`.
`count` is the `int64` bit pattern; `tags` is a nilable map reference. -/
structure StandardCounter where
  count : Int
  tags : Option Nat
deriving DecidableEq

/-- Reduction modulo `2^64`: the bit pattern of an `int64` result. -/
def wrap64 (z : Int) : Int := z % (2 : Int) ^ 64

/-- `func (c *StandardCounter) Clear() { atomic.StoreInt64(&c.count, 0) }` -/
def StandardCounter.Clear (c : StandardCounter) : StandardCounter :=
  { c with count := 0 }

/-- `func (c *StandardCounter) Count() int64 { return atomic.LoadInt64(&c.count) }` -/
def StandardCounter.Count (c : StandardCounter) : Int := c.count

/-- `func (c *StandardCounter) Dec(i int64) { atomic.AddInt64(&c.count, -i) }` —
two's-complement addition of `-i` is subtraction modulo `2^64`. -/
def StandardCounter.Dec (c : StandardCounter) (i : Int) : StandardCounter :=
  { c with count := wrap64 (c.count - i) }

/-- `func (c *StandardCounter) Inc(i int64) { atomic.AddInt64(&c.count, i) }` -/
def StandardCounter.Inc (c : StandardCounter) (i : Int) : StandardCounter :=
  { c with count := wrap64 (c.count + i) }

/-- `type CounterSnapshot struct { count int64; tags map[string]string }`. -/
structure CounterSnapshot where
  count : Int
  tags : Option Nat
deriving DecidableEq

/-- `func (c *StandardCounter) Snapshot() Counter`:
if `len(c.tags) == 0` return `&CounterSnapshot{count: c.Count()}`, else
copy the tags entry by entry into a fresh map and return
`&CounterSnapshot{count: c.Count(), tags: tagsCopy}`. -/
def StandardCounter.Snapshot (c : StandardCounter) (h : Heap) :
    Heap × CounterSnapshot :=
  match c.tags with
  | none => (h, { count := c.Count, tags := none })
  | some r =>
    if (h.get r).length = 0 then (h, { count := c.Count, tags := none })
    else
      let (h', r') := h.alloc (copyTags (h.get r))
      (h', { count := c.Count, tags := some r' })

/-- `func (c *StandardCounter) AddTags(tags map[string]string)`:
if `c.tags == nil` adopt the argument map by reference, else merge the
argument's entries into `c.tags`, overwriting on key collision. -/
def StandardCounter.AddTags (c : StandardCounter) (h : Heap) (r : Nat) :
    Heap × StandardCounter :=
  match c.tags with
  | none => (h, { c with tags := some r })
  | some r0 => (h.set r0 (mergeTags (h.get r0) (h.get r)), c)

/-- `func (c *StandardCounter) GetTags() map[string]string { return c.tags }` —
returns the map reference itself. -/
def StandardCounter.GetTags (c : StandardCounter) : Option Nat := c.tags

/-- `func (c *CounterSnapshot) Count() int64 { return c.count }` -/
def CounterSnapshot.Count (c : CounterSnapshot) : Int := c.count

/-- `func (c *CounterSnapshot) Snapshot() Counter { return c }` -/
def CounterSnapshot.Snapshot (c : CounterSnapshot) : CounterSnapshot := c

/-- `func (c *CounterSnapshot) GetTags() map[string]string { return c.tags }` -/
def CounterSnapshot.GetTags (c : CounterSnapshot) : Option Nat := c.tags

/-- A value of the `Counter` interface: one of the three implementations.
`NilCounter` is `struct{}`, so `nil` carries no state. -/
inductive Metric where
  | nil : Metric
  | std : StandardCounter → Metric
  | snap : CounterSnapshot → Metric
deriving DecidableEq

/-- One call through the `Counter`/`Taggable` interface.  `dec`/`inc` carry
the `int64` argument, `addTags` carries the reference of the argument map. -/
inductive CtrOp where
  | clear : CtrOp
  | count : CtrOp
  | dec : Int → CtrOp
  | inc : Int → CtrOp
  | snapshot : CtrOp
  | addTags : Nat → CtrOp
  | getTags : CtrOp
deriving DecidableEq

/-- The value an operation returns to its caller. -/
inductive OpResult where
  | unit : OpResult
  | int : Int → OpResult
  | tags : Option Nat → OpResult
  | metric : Metric → OpResult
deriving DecidableEq

/-- Dispatch one interface call, exactly as each Go method body does; a Go
`panic(msg)` is `.error msg`.  `NilCounter`'s methods are all no-ops with
zero results; its `Snapshot` returns `NilCounter{}`. -/
def applyOp (h : Heap) (m : Metric) (op : CtrOp) :
    Except String (Heap × Metric × OpResult) :=
  match m, op with
  | .nil, .clear => .ok (h, .nil, .unit)
  | .nil, .count => .ok (h, .nil, .int 0)
  | .nil, .dec _ => .ok (h, .nil, .unit)
  | .nil, .inc _ => .ok (h, .nil, .unit)
  | .nil, .snapshot => .ok (h, .nil, .metric .nil)
  | .nil, .addTags _ => .ok (h, .nil, .unit)
  | .nil, .getTags => .ok (h, .nil, .tags none)
  | .std c, .clear => .ok (h, .std c.Clear, .unit)
  | .std c, .count => .ok (h, .std c, .int c.Count)
  | .std c, .dec i => .ok (h, .std (c.Dec i), .unit)
  | .std c, .inc i => .ok (h, .std (c.Inc i), .unit)
  | .std c, .snapshot =>
    let p := c.Snapshot h
    .ok (p.1, .std c, .metric (.snap p.2))
  | .std c, .addTags r =>
    let p := c.AddTags h r
    .ok (p.1, .std p.2, .unit)
  | .std c, .getTags => .ok (h, .std c, .tags c.GetTags)
  | .snap _, .clear => .error "Clear called on a CounterSnapshot"
  | .snap s, .count => .ok (h, .snap s, .int s.Count)
  | .snap _, .dec _ => .error "Dec called on a CounterSnapshot"
  | .snap _, .inc _ => .error "Inc called on a CounterSnapshot"
  | .snap s, .snapshot => .ok (h, .snap s, .metric (.snap s.Snapshot))
  | .snap _, .addTags _ => .error "AddTags called on a CounterSnapshot"
  | .snap s, .getTags => .ok (h, .snap s, .tags s.GetTags)

/-- Run a sequence of interface calls, stopping at the first panic. -/
def runOpsM (h : Heap) (m : Metric) : List CtrOp → Except String (Heap × Metric)
  | [] => .ok (h, m)
  | op :: rest =>
    match applyOp h m op with
    | .error e => .error e
    | .ok (h', m', _) => runOpsM h' m' rest

/-- `func NewCounter() Counter`, with the process-wide `UseNilMetrics` flag
passed explicitly: `NilCounter{}` when set, else `&StandardCounter{count: 0}`
(whose `tags` field is the nil map). -/
def NewCounter (useNilMetrics : Bool) : Metric :=
  if useNilMetrics then .nil else .std { count := 0, tags := none }

/-- One element of an interleaved `Inc`/`Dec` call sequence. -/
inductive IncDec where
  | inc : Int → IncDec
  | dec : Int → IncDec

/-- Apply an `Inc`/`Dec` call sequence to a `StandardCounter`. -/
def runIncDec (c : StandardCounter) (ops : List IncDec) : StandardCounter :=
  ops.foldl (fun c op =>
    match op with
    | .inc i => c.Inc i
    | .dec i => c.Dec i) c

/-- Sum of the arguments of the `Inc` calls of a sequence. -/
def sumInc : List IncDec → Int
  | [] => 0
  | .inc i :: rest => i + sumInc rest
  | .dec _ :: rest => sumInc rest

/-- Sum of the arguments of the `Dec` calls of a sequence. -/
def sumDec : List IncDec → Int
  | [] => 0
  | .inc _ :: rest => sumDec rest
  | .dec i :: rest => i + sumDec rest

/-! ### Arithmetic helper lemmas -/

theorem wrap64_wrap64 (x : Int) : wrap64 (wrap64 x) = wrap64 x := by
  unfold wrap64; omega

theorem wrap64_add_left (x y : Int) : wrap64 (wrap64 x + y) = wrap64 (x + y) := by
  unfold wrap64; omega

/-- Invariant form of the C1 computation, for the induction. -/
theorem runIncDec_count (ops : List IncDec) :
    ∀ c : StandardCounter, c.count = wrap64 c.count →
      (runIncDec c ops).count = wrap64 (c.count + sumInc ops - sumDec ops) := by
  induction ops with
  | nil =>
    intro c hc
    simpa [runIncDec, sumInc, sumDec] using hc
  | cons op rest ih =>
    intro c hc
    cases op with
    | inc i =>
      have h1 : (runIncDec (c.Inc i) rest).count
          = wrap64 ((c.Inc i).count + sumInc rest - sumDec rest) := by
        apply ih
        simp [StandardCounter.Inc, wrap64_wrap64]
      have h2 : (c.Inc i).count = wrap64 (c.count + i) := rfl
      rw [show runIncDec c (IncDec.inc i :: rest) = runIncDec (c.Inc i) rest from rfl,
        h1, h2]
      rw [show wrap64 (c.count + i) + sumInc rest - sumDec rest
          = wrap64 (c.count + i) + (sumInc rest - sumDec rest) by ring,
        wrap64_add_left]
      simp [sumInc, sumDec]
      ring_nf
    | dec i =>
      have h1 : (runIncDec (c.Dec i) rest).count
          = wrap64 ((c.Dec i).count + sumInc rest - sumDec rest) := by
        apply ih
        simp [StandardCounter.Dec, wrap64_wrap64]
      have h2 : (c.Dec i).count = wrap64 (c.count - i) := rfl
      rw [show runIncDec c (IncDec.dec i :: rest) = runIncDec (c.Dec i) rest from rfl,
        h1, h2]
      rw [show wrap64 (c.count - i) + sumInc rest - sumDec rest
          = wrap64 (c.count - i) + (sumInc rest - sumDec rest) by ring,
        wrap64_add_left]
      simp [sumInc, sumDec]
      ring_nf

/-- C1: for every interleaved sequence of `Inc`/`Dec` calls on a fresh
`StandardCounter` (initial value 0), a subsequent `Count()` returns the sum
of the increments minus the sum of the decrements, reduced modulo `2^64`
(the two's-complement bit pattern of the wrapped `int64`). -/
theorem counter_inc_dec_sum (ops : List IncDec) :
    (runIncDec { count := 0, tags := none } ops).Count
      = wrap64 (sumInc ops - sumDec ops) := by
  have h := runIncDec_count ops { count := 0, tags := none } (by simp [wrap64])
  simpa [StandardCounter.Count] using h

/-- C5: `Clear()` followed immediately by `Count()` yields 0, for every
`StandardCounter` regardless of its current value. -/
theorem counter_clear_count (c : StandardCounter) : c.Clear.Count = 0 := rfl

/-- C9: `Dec(i)` has exactly the same effect on a `StandardCounter`'s state
as `Inc(-i)`, and likewise as `Inc` of `-i` reduced modulo `2^64` — so the
equivalence also covers `i = math.MinInt64`, whose Go negation wraps to
itself. -/
theorem counter_dec_eq_inc_neg (c : StandardCounter) (i : Int) :
    c.Dec i = c.Inc (-i) ∧ c.Dec i = c.Inc (wrap64 (-i)) := by
  constructor
  · simp [StandardCounter.Dec, StandardCounter.Inc, sub_eq_add_neg]
  · simp only [StandardCounter.Dec, StandardCounter.Inc, StandardCounter.mk.injEq,
      and_true]
    unfold wrap64
    omega

/-! ### Association-list and heap lemmas -/

theorem lookupTag_insertTag (m : TagMap) (k v key : String) :
    lookupTag (insertTag m k v) key
      = if k = key then some v else lookupTag m key := by
  induction m with
  | nil => simp [insertTag, lookupTag]
  | cons p rest ih =>
    obtain ⟨a, b⟩ := p
    by_cases hak : a = k
    · subst hak
      simp only [insertTag, if_pos rfl, lookupTag]
      by_cases hk : a = key <;> simp [hk]
    · simp only [insertTag, if_neg hak, lookupTag, ih]
      by_cases ha : a = key <;> by_cases hk : k = key <;> simp_all
  
theorem lookupTag_eq_none (m : TagMap) (key : String)
    (h : key ∉ m.map Prod.fst) : lookupTag m key = none := by
  induction m with
  | nil => rfl
  | cons p rest ih =>
    simp only [List.map_cons, List.mem_cons, not_or] at h
    obtain ⟨a, b⟩ := p
    simp only [lookupTag]
    rw [if_neg (fun hk => h.1 hk.symm)]
    exact ih h.2

theorem lookupTag_mergeTags (src : TagMap) (hnd : TagKeysNodup src) :
    ∀ (dst : TagMap) (key : String),
      lookupTag (mergeTags dst src) key
        = match lookupTag src key with
          | some v => some v
          | none => lookupTag dst key := by
  induction src with
  | nil => intro dst key; simp [mergeTags, lookupTag]
  | cons p rest ih =>
    intro dst key
    obtain ⟨k, v⟩ := p
    simp only [TagKeysNodup, List.map_cons, List.nodup_cons] at hnd
    have hstep : mergeTags dst ((k, v) :: rest) = mergeTags (insertTag dst k v) rest := rfl
    rw [hstep, ih hnd.2]
    simp only [lookupTag]
    by_cases hk : k = key
    · subst hk
      have : lookupTag rest k = none := lookupTag_eq_none rest k hnd.1
      simp [this, lookupTag_insertTag]
    · rw [if_neg hk]
      cases hr : lookupTag rest key <;> simp [lookupTag_insertTag, if_neg hk]

theorem lookupTag_copyTags (m : TagMap) (hnd : TagKeysNodup m) (key : String) :
    lookupTag (copyTags m) key = lookupTag m key := by
  unfold copyTags
  rw [lookupTag_mergeTags m hnd []]
  cases hm : lookupTag m key <;> simp [lookupTag]

theorem heap_get_set_self (h : Heap) (r : Nat) (m : TagMap)
    (hr : r < h.store.length) : (h.set r m).get r = m := by
  unfold Heap.set Heap.get
  obtain ⟨l⟩ := h
  simp only at hr ⊢
  induction l generalizing r with
  | nil => simp at hr
  | cons a t ih =>
    cases r with
    | zero => simp
    | succ n =>
      simp only [List.length_cons, Nat.succ_lt_succ_iff] at hr
      simpa using ih n hr

theorem heap_get_set_ne (h : Heap) (r r' : Nat) (m : TagMap)
    (hne : r ≠ r') : (h.set r m).get r' = h.get r' := by
  unfold Heap.set Heap.get
  obtain ⟨l⟩ := h
  simp only
  induction l generalizing r r' with
  | nil => simp
  | cons a t ih =>
    cases r with
    | zero => cases r' with
      | zero => exact absurd rfl hne
      | succ n' => simp
    | succ n =>
      cases r' with
      | zero => simp
      | succ n' =>
        have : n ≠ n' := fun hc => hne (by rw [hc])
        simpa using ih n n' this

theorem heap_get_alloc_old (h : Heap) (m : TagMap) (r : Nat)
    (hr : r < h.store.length) : (h.alloc m).1.get r = h.get r := by
  unfold Heap.alloc Heap.get
  obtain ⟨l⟩ := h
  simp only at hr ⊢
  induction l generalizing r with
  | nil => simp at hr
  | cons a t ih =>
    cases r with
    | zero => simp
    | succ n =>
      simp only [List.length_cons, Nat.succ_lt_succ_iff] at hr
      simpa using ih n hr

theorem heap_get_alloc_new (h : Heap) (m : TagMap) :
    (h.alloc m).1.get (h.alloc m).2 = m := by
  unfold Heap.alloc Heap.get
  obtain ⟨l⟩ := h
  simp only
  induction l with
  | nil => simp
  | cons a t ih => simp [ih]

/-! ### Claim theorems (snapshot, nil counter, factory, panics) -/

/-- C6: `Snapshot()` on a `CounterSnapshot` returns the receiver itself, so
in particular its `Count()` and `GetTags()` agree with the receiver's, and
snapshotting a snapshot is idempotent. -/
theorem snapshot_of_snapshot_is_self (s : CounterSnapshot) :
    s.Snapshot = s ∧ s.Snapshot.Count = s.Count ∧ s.Snapshot.GetTags = s.GetTags :=
  ⟨rfl, rfl, rfl⟩

/-- C8: `NewCounter()` returns `NilCounter{}` when `UseNilMetrics` is set,
otherwise a fresh `StandardCounter` whose value is 0 and whose tag set is the
nil (empty) map. -/
theorem newCounter_cases :
    NewCounter true = Metric.nil ∧
    NewCounter false = Metric.std { count := 0, tags := none } ∧
    StandardCounter.Count { count := 0, tags := none } = 0 ∧
    ∀ h : Heap, viewTags h (StandardCounter.GetTags { count := 0, tags := none }) = [] :=
  ⟨rfl, rfl, rfl, fun _ => rfl⟩

/-- Exactly the operation/receiver pairs that panic in the fragment:
`Clear`, `Dec`, `Inc`, `AddTags` on a `CounterSnapshot`. -/
def snapMutator : Metric → CtrOp → Bool
  | .snap _, .clear => true
  | .snap _, .dec _ => true
  | .snap _, .inc _ => true
  | .snap _, .addTags _ => true
  | _, _ => false

/-- C3: `Clear`, `Inc`, `Dec`, `AddTags` on any `CounterSnapshot` panic with
the immutable-misuse message, for every input; and these are the only
failing operations — every other receiver/operation pair succeeds. -/
theorem snapshot_mutators_panic (h : Heap) (s : CounterSnapshot) (i : Int)
    (r : Nat) (m : Metric) (op : CtrOp) :
    applyOp h (.snap s) .clear = .error "Clear called on a CounterSnapshot" ∧
    applyOp h (.snap s) (.dec i) = .error "Dec called on a CounterSnapshot" ∧
    applyOp h (.snap s) (.inc i) = .error "Inc called on a CounterSnapshot" ∧
    applyOp h (.snap s) (.addTags r) = .error "AddTags called on a CounterSnapshot" ∧
    ((applyOp h m op).isOk = false ↔ snapMutator m op = true) := by
  refine ⟨rfl, rfl, rfl, rfl, ?_⟩
  cases m <;> cases op <;> simp [applyOp, snapMutator, Except.isOk, Except.toBool]

/-- C7: a `NilCounter` is inert: every sequence of operations succeeds and
leaves both the counter (stateless) and the heap unchanged; `Count()` is
always 0, `GetTags()` always the nil map (also after any `AddTags`, which is
a no-op), and `Snapshot()` returns a new `NilCounter`. -/
theorem nil_counter_inert (h : Heap) (ops : List CtrOp) :
    runOpsM h Metric.nil ops = .ok (h, Metric.nil) ∧
    applyOp h Metric.nil .count = .ok (h, Metric.nil, .int 0) ∧
    applyOp h Metric.nil .getTags = .ok (h, Metric.nil, .tags none) ∧
    applyOp h Metric.nil .snapshot = .ok (h, Metric.nil, .metric Metric.nil) ∧
    applyOp h Metric.nil .clear = .ok (h, Metric.nil, .unit) ∧
    (∀ i, applyOp h Metric.nil (.inc i) = .ok (h, Metric.nil, .unit)) ∧
    (∀ i, applyOp h Metric.nil (.dec i) = .ok (h, Metric.nil, .unit)) ∧
    (∀ r, applyOp h Metric.nil (.addTags r) = .ok (h, Metric.nil, .unit)) := by
  refine ⟨?_, rfl, rfl, rfl, rfl, fun _ => rfl, fun _ => rfl, fun _ => rfl⟩
  induction ops generalizing h with
  | nil => rfl
  | cons op rest ih => cases op <;> simpa [runOpsM, applyOp] using ih h

/-! ### Validity of map references and the mutation sub-language -/

/-- A possibly-nil map field only holds references into the heap. -/
def RefsValid (h : Heap) : Option Nat → Prop
  | none => True
  | some r => r < h.store.length

instance (h : Heap) : (t : Option Nat) → Decidable (RefsValid h t)
  | none => isTrue trivial
  | some r => Nat.decLt r h.store.length

/-- The mutating operations of a `StandardCounter` named by claim C2. -/
inductive Mutation where
  | clear : Mutation
  | inc : Int → Mutation
  | dec : Int → Mutation
  | addTags : Nat → Mutation

/-- Apply one mutating call to a live `StandardCounter`. -/
def applyMutation (h : Heap) (c : StandardCounter) : Mutation → Heap × StandardCounter
  | .clear => (h, c.Clear)
  | .inc i => (h, c.Inc i)
  | .dec i => (h, c.Dec i)
  | .addTags r => c.AddTags h r

/-- Apply a whole sequence of mutating calls to a live `StandardCounter`,
threading the heap and the evolving counter state. -/
def applyMutations (h : Heap) (c : StandardCounter) : List Mutation → Heap × StandardCounter
  | [] => (h, c)
  | mu :: rest =>
    applyMutations (applyMutation h c mu).1 (applyMutation h c mu).2 rest

/-- Invariant of any mutation sequence on a counter that already owns a tag
map: the counter keeps the same map reference throughout, and every heap
write lands on that reference, so any other reference is untouched. -/
theorem applyMutations_preserve (mus : List Mutation) :
    ∀ (h : Heap) (c : StandardCounter) (r rs : Nat), c.tags = some r → r ≠ rs →
      (applyMutations h c mus).2.tags = some r ∧
      (applyMutations h c mus).1.get rs = h.get rs := by
  induction mus with
  | nil => intro h c r rs hc _; exact ⟨hc, rfl⟩
  | cons mu rest ih =>
    intro h c r rs hc hne
    obtain ⟨cnt, tg⟩ := c
    have htg : tg = some r := hc
    subst htg
    cases mu with
    | clear => exact ih h ⟨0, some r⟩ r rs rfl hne
    | inc i => exact ih h ⟨wrap64 (cnt + i), some r⟩ r rs rfl hne
    | dec i => exact ih h ⟨wrap64 (cnt - i), some r⟩ r rs rfl hne
    | addTags ra =>
      have step := ih (h.set r (mergeTags (h.get r) (h.get ra))) ⟨cnt, some r⟩ r rs rfl hne
      exact ⟨step.1, step.2.trans (heap_get_set_ne h r rs _ hne)⟩

/-- C4: `AddTags` on a `StandardCounter` adopts the argument map by
reference when no tags exist yet, otherwise merges each entry of the
argument into the existing map, overwriting on key collision; and the
concrete two-call example yields tags `{"a": "2", "b": "3"}`. -/
theorem addTags_merges_tags (h : Heap) (v : Int) (r0 r : Nat)
    (hr0 : r0 < h.store.length) (hnd : TagKeysNodup (h.get r)) :
    (∀ (h₂ : Heap) (v₂ : Int) (r₂ : Nat),
        StandardCounter.AddTags { count := v₂, tags := none } h₂ r₂
          = (h₂, { count := v₂, tags := some r₂ })) ∧
    (StandardCounter.AddTags { count := v, tags := some r0 } h r).2
        = { count := v, tags := some r0 } ∧
    (∀ key,
        lookupTag ((StandardCounter.AddTags { count := v, tags := some r0 } h r).1.get r0) key
          = match lookupTag (h.get r) key with
            | some x => some x
            | none => lookupTag (h.get r0) key) ∧
    (let s1 := StandardCounter.AddTags { count := 0, tags := none }
        ⟨[[("a", "1")], [("a", "2"), ("b", "3")]]⟩ 0
     let s2 := StandardCounter.AddTags s1.2 s1.1 1
     viewTags s2.1 s2.2.GetTags = [("a", "2"), ("b", "3")]) := by
  refine ⟨fun _ _ _ => rfl, rfl, ?_, by decide⟩
  intro key
  show lookupTag ((h.set r0 (mergeTags (h.get r0) (h.get r))).get r0) key = _
  rw [heap_get_set_self h r0 _ hr0, lookupTag_mergeTags (h.get r) hnd (h.get r0) key]

/-- Witness for C4 at a concrete heap, counter and argument map. -/
theorem addTags_merges_tags_witness :
    0 < (Heap.mk [[("x", "1")], [("y", "2")]]).store.length ∧
    TagKeysNodup ((Heap.mk [[("x", "1")], [("y", "2")]]).get 1) ∧
    (StandardCounter.AddTags { count := 7, tags := some 0 }
        (Heap.mk [[("x", "1")], [("y", "2")]]) 1).2
      = { count := 7, tags := some 0 } :=
  ⟨by decide, by decide,
    (addTags_merges_tags (Heap.mk [[("x", "1")], [("y", "2")]]) 7 0 1
      (by decide) (by decide)).2.1⟩

/-- C2: `Snapshot()` of a `StandardCounter` captures the current value and a
per-entry copy of the tags in a fresh map (absent when the tag set is
empty), sharing no reference with the live counter; every subsequent
sequence of `Inc`, `Dec`, `Clear` and `AddTags` calls on the original, in
any order and from any interleaving point onward, leaves the snapshot's
reported tags (and trivially its stored count) unchanged. -/
theorem snapshot_independent (h : Heap) (c : StandardCounter)
    (hv : RefsValid h c.tags) (hnd : TagKeysNodup (viewTags h c.tags)) :
    (c.Snapshot h).2.Count = c.Count ∧
    (∀ key, lookupTag (viewTags (c.Snapshot h).1 (c.Snapshot h).2.GetTags) key
        = lookupTag (viewTags h c.GetTags) key) ∧
    (viewTags h c.tags = [] → (c.Snapshot h).2.tags = none) ∧
    (∀ r r', c.tags = some r → (c.Snapshot h).2.tags = some r' → r' ≠ r) ∧
    (∀ (mus : List Mutation) (key : String),
      lookupTag
          (viewTags (applyMutations (c.Snapshot h).1 c mus).1 (c.Snapshot h).2.GetTags) key
        = lookupTag (viewTags (c.Snapshot h).1 (c.Snapshot h).2.GetTags) key) := by
  obtain ⟨cnt, tg⟩ := c
  cases tg with
  | none =>
    refine ⟨rfl, fun key => rfl, fun _ => rfl, ?_, ?_⟩
    · intro r r' hr _; exact absurd hr (by simp)
    · intro mus key; rfl
  | some r =>
    by_cases hlen : (h.get r).length = 0
    · have hmap : h.get r = [] := List.length_eq_zero.mp hlen
      have hsnap : StandardCounter.Snapshot ⟨cnt, some r⟩ h = (h, ⟨cnt, none⟩) := by
        simp [StandardCounter.Snapshot, StandardCounter.Count, hlen]
      refine ⟨by rw [hsnap]; rfl, ?_, fun _ => by rw [hsnap], ?_, ?_⟩
      · intro key
        rw [hsnap]
        show lookupTag [] key = lookupTag (h.get r) key
        rw [hmap]
      · intro r1 r' _ h2
        rw [hsnap] at h2
        exact absurd h2 (by simp)
      · intro mus key
        rw [hsnap]
        rfl
    · have hr : r < h.store.length := hv
      have hsnap : StandardCounter.Snapshot ⟨cnt, some r⟩ h
          = ((h.alloc (copyTags (h.get r))).1,
             ⟨cnt, some (h.alloc (copyTags (h.get r))).2⟩) := by
        simp [StandardCounter.Snapshot, StandardCounter.Count, hlen]
      have hndr : TagKeysNodup (h.get r) := hnd
      refine ⟨by rw [hsnap]; rfl, ?_, ?_, ?_, ?_⟩
      · intro key
        rw [hsnap]
        show lookupTag ((h.alloc (copyTags (h.get r))).1.get
            (h.alloc (copyTags (h.get r))).2) key = lookupTag (h.get r) key
        rw [heap_get_alloc_new, lookupTag_copyTags (h.get r) hndr key]
      · intro hemp
        exact absurd (congrArg List.length hemp) hlen
      · intro r1 r' h1 h2
        rw [hsnap] at h2
        have hr1 : r1 = r := by injection h1 with h1e; omega
        have hr' : r' = h.store.length := by
          injection h2 with h2e; rw [← h2e]; rfl
        subst hr1; subst hr'
        omega
      · intro mus key
        rw [hsnap]
        have hne : r ≠ (h.alloc (copyTags (h.get r))).2 := by
          show r ≠ h.store.length; omega
        have pres := applyMutations_preserve mus (h.alloc (copyTags (h.get r))).1
          ⟨cnt, some r⟩ r (h.alloc (copyTags (h.get r))).2 rfl hne
        show lookupTag ((applyMutations (h.alloc (copyTags (h.get r))).1
            ⟨cnt, some r⟩ mus).1.get (h.alloc (copyTags (h.get r))).2) key
          = lookupTag ((h.alloc (copyTags (h.get r))).1.get
            (h.alloc (copyTags (h.get r))).2) key
        rw [pres.2]

/-- Witness for C2 at a concrete heap and counter. -/
theorem snapshot_independent_witness :
    RefsValid (Heap.mk [[("a", "1")]]) (StandardCounter.mk 5 (some 0)).tags ∧
    TagKeysNodup (viewTags (Heap.mk [[("a", "1")]]) (StandardCounter.mk 5 (some 0)).tags) ∧
    ((StandardCounter.mk 5 (some 0)).Snapshot (Heap.mk [[("a", "1")]])).2.Count
      = (StandardCounter.mk 5 (some 0)).Count :=
  ⟨by decide, by decide,
    (snapshot_independent (Heap.mk [[("a", "1")]]) (StandardCounter.mk 5 (some 0))
      (by decide) (by decide)).1⟩

/-- C10: each `StandardCounter` operation touches only the field it is
about: `Count`, `GetTags` and `Snapshot` leave the counter (value and tags)
unchanged — `Snapshot` only allocates a fresh map, preserving the view of
the counter's own tags; `Clear`, `Inc` and `Dec` leave the tag field
unchanged; `AddTags` leaves the value unchanged. -/
theorem standard_counter_frame (h : Heap) (c : StandardCounter) (i : Int)
    (r : Nat) (hv : RefsValid h c.tags) :
    applyOp h (.std c) .count = .ok (h, .std c, .int c.Count) ∧
    applyOp h (.std c) .getTags = .ok (h, .std c, .tags c.GetTags) ∧
    applyOp h (.std c) .snapshot
      = .ok ((c.Snapshot h).1, .std c, .metric (.snap (c.Snapshot h).2)) ∧
    (∀ key, lookupTag (viewTags (c.Snapshot h).1 c.GetTags) key
        = lookupTag (viewTags h c.GetTags) key) ∧
    c.Clear.tags = c.tags ∧
    (c.Inc i).tags = c.tags ∧
    (c.Dec i).tags = c.tags ∧
    (c.AddTags h r).2.count = c.count := by
  refine ⟨rfl, rfl, rfl, ?_, rfl, rfl, rfl, ?_⟩
  · intro key
    obtain ⟨cnt, tg⟩ := c
    cases tg with
    | none => rfl
    | some r0 =>
      by_cases hlen : (h.get r0).length = 0
      · have hsnap : StandardCounter.Snapshot ⟨cnt, some r0⟩ h = (h, ⟨cnt, none⟩) := by
          simp [StandardCounter.Snapshot, StandardCounter.Count, hlen]
        rw [hsnap]
      · have hr0 : r0 < h.store.length := hv
        have hsnap : StandardCounter.Snapshot ⟨cnt, some r0⟩ h
            = ((h.alloc (copyTags (h.get r0))).1,
               ⟨cnt, some (h.alloc (copyTags (h.get r0))).2⟩) := by
          simp [StandardCounter.Snapshot, StandardCounter.Count, hlen]
        rw [hsnap]
        show lookupTag ((h.alloc (copyTags (h.get r0))).1.get r0) key
          = lookupTag (h.get r0) key
        rw [heap_get_alloc_old h _ r0 hr0]
  · obtain ⟨cnt, tg⟩ := c
    cases tg <;> rfl

/-- Witness for C10 at a concrete heap and counter. -/
theorem standard_counter_frame_witness :
    RefsValid (Heap.mk [[("a", "1")]]) (StandardCounter.mk 5 (some 0)).tags ∧
    (StandardCounter.mk 5 (some 0)).Clear.tags = (StandardCounter.mk 5 (some 0)).tags :=
  ⟨by decide,
    (standard_counter_frame (Heap.mk [[("a", "1")]]) (StandardCounter.mk 5 (some 0))
      2 0 (by decide)).2.2.2.2.1⟩
